import Mathlib

/-!
Verification of the Chess2D minimax AI (`src/ai/minimax_ai.py`).

The chess rules engine (the external `python-chess` library) is out of scope
per the specification; it is modelled as an abstract `Rules` interface whose
operations (legal-move enumeration, push/undo, terminal queries, canonical
serialization) the search consumes.  The engine's own logic — evaluation,
move ordering, the negamax core, the iterative-deepening driver — is embedded
faithfully from the Python source.

Modelling notes:
  * Python floats only ever hold exactly representable values here: the only
    fractional computation is `(abs(3.5-file)+abs(3.5-rank))*10`, which equals
    the integer `5*(|7-2*file| + |7-2*rank|)` exactly in double precision, so
    all scores are embedded as `Int`, with `float('-inf')`/`float('inf')`
    embedded as the extended-integer type `Val`.
  * `time.time()`-based checks are modelled by an oracle `Nat → Bool` indexed
    by the call count of `is_time_up` within one `get_move` call, together
    with a `ticks` counter in the search state; short-circuit evaluation of
    `depth == 0 or board.is_game_over() or self.is_time_up()` is replicated
    exactly, so the oracle is consulted at precisely the moments the Python
    code consults the wall clock.
  * Python dicts (`transposition_table`, `history_table`) and the 64x64
    killer array are modelled as total functions with pointwise update; the
    `history_table.get(key, 0)` default makes the function-with-default-0
    representation observationally equivalent to the dict.
  * `get_move` is modelled with the opening book disabled (`use_book=False`),
    the configuration under which claims C1, C5, C8 and C9 are stated; the
    book path performs no board mutation and no table writes.
-/

/-- Extended integers: the value lattice of the search
(`float('-inf')`, finite scores, `float('inf')`). -/
inductive Val where
  | negInf : Val
  | fin : Int → Val
  | posInf : Val
deriving DecidableEq, Repr

/-- `a <= b` on extended integers, as Python float comparison. -/
def Val.le : Val → Val → Bool
  | .negInf, _ => true
  | _, .posInf => true
  | .fin a, .fin b => decide (a ≤ b)
  | .posInf, .fin _ => false
  | .posInf, .negInf => false
  | .fin _, .negInf => false

/-- `a < b` on extended integers. -/
def Val.lt (a b : Val) : Bool := !(Val.le b a)

/-- Negation, as Python unary minus on floats. -/
def Val.neg : Val → Val
  | .negInf => .posInf
  | .posInf => .negInf
  | .fin n => .fin (-n)

/-- `a + 1` (used for the null-move window `-beta + 1`). -/
def Val.add1 : Val → Val
  | .negInf => .negInf
  | .posInf => .posInf
  | .fin n => .fin (n + 1)

/-- `a - 1` (used for the zero-width window `-alpha - 1`). -/
def Val.sub1 : Val → Val
  | .negInf => .negInf
  | .posInf => .posInf
  | .fin n => .fin (n - 1)

/-- Python `max` on these values. -/
def Val.max (a b : Val) : Val := if Val.le a b then b else a

/-- Python `min` on these values. -/
def Val.min (a b : Val) : Val := if Val.le a b then a else b

/-- Chess piece kinds, as `chess.PAWN` .. `chess.KING`. -/
inductive PieceType where
  | pawn | knight | bishop | rook | queen | king
deriving DecidableEq, Repr

/-- A piece: kind plus color (`true` = white, as `chess.WHITE`). -/
structure Piece where
  pt : PieceType
  color : Bool
deriving DecidableEq, Repr

/-- A move: (from-square, to-square, optional promotion), squares 0..63. -/
structure Move where
  fromSq : Nat
  toSq : Nat
  promo : Option PieceType
deriving DecidableEq, Repr

/-- `MinimaxAI.PIECE_VALUES`. -/
def PIECE_VALUES : PieceType → Int
  | .pawn => 100
  | .knight => 320
  | .bishop => 330
  | .rook => 500
  | .queen => 900
  | .king => 20000

/-- `MinimaxAI.PAWN_TABLE` (64 entries, indexed by square). -/
def PAWN_TABLE : List Int :=
  [0,  0,  0,  0,  0,  0,  0,  0,
   50, 50, 50, 50, 50, 50, 50, 50,
   10, 10, 20, 30, 30, 20, 10, 10,
   5,  5, 10, 25, 25, 10,  5,  5,
   0,  0,  0, 20, 20,  0,  0,  0,
   5, -5,-10,  0,  0,-10, -5,  5,
   5, 10, 10,-20,-20, 10, 10,  5,
   0,  0,  0,  0,  0,  0,  0,  0]

/-- The external rules engine (python-chess), abstracted to the operations
the search consumes, per spec section 6. `Pos` is the opaque position type. -/
structure Rules (Pos : Type) where
  legalMoves : Pos → List Move
  next : Pos → Move → Pos
  nullNext : Pos → Pos
  fen : Pos → String
  turn : Pos → Bool
  isCheck : Pos → Bool
  isCheckmate : Pos → Bool
  isGameOver : Pos → Bool
  isCapture : Pos → Move → Bool
  pieceAt : Pos → Nat → Option Piece

/-- The mutable board handle: current position plus the undo stack that
`board.push` grows and `board.pop` shrinks. -/
structure Board (Pos : Type) where
  cur : Pos
  hist : List Pos

/-- `board.push(move)`. -/
def Board.push {Pos : Type} (R : Rules Pos) (b : Board Pos) (m : Move) : Board Pos :=
  ⟨R.next b.cur m, b.cur :: b.hist⟩

/-- `board.push(chess.Move.null())`. -/
def Board.pushNull {Pos : Type} (R : Rules Pos) (b : Board Pos) : Board Pos :=
  ⟨R.nullNext b.cur, b.cur :: b.hist⟩

/-- `board.pop()`. -/
def Board.pop {Pos : Type} : Board Pos → Board Pos
  | ⟨c, []⟩ => ⟨c, []⟩
  | ⟨_, p :: rest⟩ => ⟨p, rest⟩

/-- The AI instance's mutable search state: transposition table, killer
table, history table, node counter, and the clock-check counter. -/
structure SearchSt where
  tt : String → Option Val
  killer : Nat → Nat → Option Nat
  history : Nat × Nat → Int
  nodes : Nat
  ticks : Nat

/-- `self.is_time_up()`: consult the clock oracle at the current call index
and advance the index. -/
def tick (oracle : Nat → Bool) (st : SearchSt) : Bool × SearchSt :=
  (oracle st.ticks, { st with ticks := st.ticks + 1 })

/-- The state after the `self.nodes += 1` and the leaf-test time check at the
top of a non-leaf `minimax` node. -/
def stepped (st : SearchSt) : SearchSt :=
  { st with nodes := st.nodes + 1, ticks := st.ticks + 1 }

/-- Per-square term of the evaluation loop: base piece value plus the pawn
piece-square bonus or the bishop/knight center-distance malus.
`(abs(3.5-file)+abs(3.5-rank))*10 = 5*(|7-2*file|+|7-2*rank|)` exactly. -/
def pieceSquareValue (piece : Piece) (sq : Nat) : Int :=
  let v := PIECE_VALUES piece.pt
  if piece.pt = .pawn then
    v + PAWN_TABLE.getD (if piece.color then sq else sq ^^^ 56) 0
  else if piece.pt = .bishop ∨ piece.pt = .knight then
    v - 5 * (((7 : Int) - 2 * (sq % 8 : Nat)).natAbs + ((7 : Int) - 2 * (sq / 8 : Nat)).natAbs)
  else v

/-- The material-and-position sum of `evaluate_position` (white-centric). -/
def materialScore {Pos : Type} (R : Rules Pos) (p : Pos) : Int :=
  ((List.range 64).map (fun sq =>
    match R.pieceAt p sq with
    | none => 0
    | some piece =>
        if piece.color then pieceSquareValue piece sq else -(pieceSquareValue piece sq))).sum

/-- Number of pawns of color `c` on the board (`bin(pawns).count('1')`). -/
def pawnCount {Pos : Type} (R : Rules Pos) (p : Pos) (c : Bool) : Int :=
  (((List.range 64).filter
    (fun sq => decide (R.pieceAt p sq = some ⟨PieceType.pawn, c⟩))).length : Int)

/-- The pawn-structure term of `evaluate_position` (white-centric). -/
def pawnCountScore {Pos : Type} (R : Rules Pos) (p : Pos) : Int :=
  5 * pawnCount R p true - 5 * pawnCount R p false

/-- `MinimaxAI.evaluate_position`, embedded term by term from the source. -/
def evaluate_position {Pos : Type} (R : Rules Pos) (p : Pos) : Int :=
  if R.isCheckmate p then (if R.turn p then -20000 else 20000)
  else
    let mobility : Int := ((R.legalMoves p).length : Int)
    let score := materialScore R p
      + (if R.turn p then mobility * 10 else -(mobility * 10))
      + pawnCountScore R p
      + (if R.isCheck p then (if R.turn p then -50 else 50) else 0)
    if R.turn p then score else -score

/-- `MinimaxAI.has_major_pieces`. -/
def has_major_pieces {Pos : Type} (R : Rules Pos) (p : Pos) : Bool :=
  (List.range 64).any (fun sq =>
    match R.pieceAt p sq with
    | some piece =>
        piece.color == R.turn p && !(piece.pt = PieceType.king) && !(piece.pt = PieceType.pawn)
    | none => false)

/-- The capture term of the move-ordering score: MVV-LVA when both the
destination and origin squares hold pieces, otherwise 0 (the Python guard
`if victim and attacker` fails when `piece_at(move.to_square)` is `None`,
as it is for en passant captures). -/
def captureScore {Pos : Type} (R : Rules Pos) (p : Pos) (m : Move) : Int :=
  if R.isCapture p m then
    match R.pieceAt p m.toSq, R.pieceAt p m.fromSq with
    | some victim, some attacker =>
        10000 + PIECE_VALUES victim.pt - PIECE_VALUES attacker.pt
    | _, _ => 0
  else 0

/-- The full per-move ordering score of `order_moves`: capture term, then
killer bonus, then history score. -/
def moveScore {Pos : Type} (R : Rules Pos) (st : SearchSt) (p : Pos) (depth : Nat)
    (m : Move) : Int :=
  captureScore R p m
  + (if st.killer depth m.fromSq = some m.toSq then 9000 else 0)
  + st.history (m.fromSq, m.toSq)

/-- Stable insertion of a scored move into a descending-sorted list: an
earlier element stays ahead of later elements with an equal score, matching
Python's stable `sort(reverse=True)`. -/
def insertDesc (x : Move × Int) : List (Move × Int) → List (Move × Int)
  | [] => [x]
  | y :: ys => if y.2 ≤ x.2 then x :: y :: ys else y :: insertDesc x ys

/-- Stable descending sort by score. -/
def sortDesc : List (Move × Int) → List (Move × Int)
  | [] => []
  | x :: xs => insertDesc x (sortDesc xs)

/-- `MinimaxAI.order_moves`. -/
def order_moves {Pos : Type} (R : Rules Pos) (st : SearchSt) (p : Pos) (depth : Nat) :
    List Move :=
  (sortDesc ((R.legalMoves p).map (fun m => (m, moveScore R st p depth m)))).map
    (fun x => x.1)

/-- Leaf handling of `minimax`: evaluate, cache under the entry hash, return. -/
def leafStep {Pos : Type} (R : Rules Pos) (board : Board Pos) (h : String)
    (st : SearchSt) : Val × Board Pos × SearchSt :=
  let e := Val.fin (evaluate_position R board.cur)
  (e, board, { st with tt := fun k => if k = h then some e else st.tt k })

/-- The per-move principal-variation search of `minimax`: full window for the
first move, zero-width window then conditional full re-search for the rest.
`child` is the recursive search at `depth - 1`. -/
def childSearch {Pos : Type}
    (child : Board Pos → Val → Val → Bool → SearchSt → Val × Board Pos × SearchSt)
    (maximizing : Bool) :
    Bool → Board Pos → Val → Val → SearchSt → Val × Board Pos × SearchSt
  | true, b1, alpha, beta, st =>
      let q := child b1 (Val.neg beta) (Val.neg alpha) (!maximizing) st
      (Val.neg q.1, q.2.1, q.2.2)
  | false, b1, alpha, beta, st =>
      let q := child b1 (Val.sub1 (Val.neg alpha)) (Val.neg alpha) (!maximizing) st
      let ev := Val.neg q.1
      if Val.lt alpha ev && Val.lt ev beta then
        let q2 := child q.2.1 (Val.neg beta) (Val.neg alpha) (!maximizing) q.2.2
        (Val.neg q2.1, q2.2.1, q2.2.2)
      else (ev, q.2.1, q.2.2)

/-- The ordered-move loop of `minimax` (both the maximizing and minimizing
branches of the source, which differ only in which bound and accumulator are
updated): push, search the child, pop, update bounds, store the killer and
cut off when the bounds cross, and cache the accumulated value under `h` when
the move list is exhausted or the node is cut. -/
def movesPhase {Pos : Type} (R : Rules Pos)
    (child : Board Pos → Val → Val → Bool → SearchSt → Val × Board Pos × SearchSt)
    (ndepth : Nat) (maximizing : Bool) (h : String) :
    List Move → Board Pos → Val → Val → Bool → Val → SearchSt →
      Val × Board Pos × SearchSt
  | [], board, _alpha, _beta, _first, acc, st =>
      (acc, board, { st with tt := fun k => if k = h then some acc else st.tt k })
  | m :: rest, board, alpha, beta, first, acc, st =>
      let q := childSearch child maximizing first (Board.push R board m) alpha beta st
      let ev := q.1
      let board2 := Board.pop q.2.1
      let st2 := q.2.2
      let acc2 := if maximizing then Val.max acc ev else Val.min acc ev
      let alpha2 := if maximizing then Val.max alpha ev else alpha
      let beta2 := if maximizing then beta else Val.min beta ev
      if Val.le beta2 alpha2 then
        let st3 := { st2 with
          killer := fun d fr =>
            if d = ndepth ∧ fr = m.fromSq then some m.toSq else st2.killer d fr }
        (acc2, board2, { st3 with tt := fun k => if k = h then some acc2 else st3.tt k })
      else
        movesPhase R child ndepth maximizing h rest board2 alpha2 beta2 false acc2 st2

/-- `MinimaxAI.minimax`: transposition probe, leaf test (with the source's
short-circuit clock check), null-move pruning, then the PVS move loop. -/
def minimax {Pos : Type} (R : Rules Pos) (oracle : Nat → Bool) (board : Board Pos)
    (depth : Nat) (alpha beta : Val) (maximizing : Bool) (st : SearchSt) :
    Val × Board Pos × SearchSt :=
  let h := R.fen board.cur
  match st.tt h with
  | some v => (v, board, st)
  | none =>
    let st1 := { st with nodes := st.nodes + 1 }
    match depth with
    | 0 => leafStep R board h st1
    | d + 1 =>
      if R.isGameOver board.cur then leafStep R board h st1
      else
        let t := tick oracle st1
        if t.1 then leafStep R board h t.2
        else
          let st2 := t.2
          match d with
          | 0 =>
            movesPhase R
              (fun b a bb m2 s2 => minimax R oracle b 0 a bb m2 s2)
              1 maximizing h (order_moves R st2 board.cur 1)
              board alpha beta true
              (if maximizing then Val.negInf else Val.posInf) st2
          | 1 =>
            movesPhase R
              (fun b a bb m2 s2 => minimax R oracle b 1 a bb m2 s2)
              2 maximizing h (order_moves R st2 board.cur 2)
              board alpha beta true
              (if maximizing then Val.negInf else Val.posInf) st2
          | dd + 2 =>
            if !R.isCheck board.cur && has_major_pieces R board.cur then
              let q := minimax R oracle (Board.pushNull R board) dd (Val.neg beta)
                (Val.add1 (Val.neg beta)) (!maximizing) st2
              let board2 := Board.pop q.2.1
              if Val.le beta (Val.neg q.1) then (beta, board2, q.2.2)
              else
                movesPhase R
                  (fun b a bb m2 s2 => minimax R oracle b (dd + 2) a bb m2 s2)
                  (dd + 3) maximizing h (order_moves R q.2.2 board2.cur (dd + 3))
                  board2 alpha beta true
                  (if maximizing then Val.negInf else Val.posInf) q.2.2
            else
              movesPhase R
                (fun b a bb m2 s2 => minimax R oracle b (dd + 2) a bb m2 s2)
                (dd + 3) maximizing h (order_moves R st2 board.cur (dd + 3))
                board alpha beta true
                (if maximizing then Val.negInf else Val.posInf) st2

/-- The per-move loop of `iterative_deepening_search`: time check, push,
full-window negamax at `depth - 1`, pop, update `alpha`/`best_move`, then the
unconditional driver-side history write for the current best move. -/
def idsGo {Pos : Type} (R : Rules Pos) (oracle : Nat → Bool) (depth : Nat) :
    List Move → Option Move → Val → Board Pos → SearchSt →
      Option Move × Board Pos × SearchSt
  | [], best, _alpha, board, st => (best, board, st)
  | m :: rest, best, alpha, board, st =>
      let t := tick oracle st
      if t.1 then (best, board, t.2)
      else
        let q := minimax R oracle (Board.push R board m) (depth - 1) Val.negInf
          (Val.neg alpha) false t.2
        let value := Val.neg q.1
        let board2 := Board.pop q.2.1
        let st2 := q.2.2
        let best2 := if Val.lt alpha value then some m else best
        let alpha2 := if Val.lt alpha value then value else alpha
        let st3 :=
          match best2 with
          | none => st2
          | some bm =>
              { st2 with history := fun k =>
                  if k = (bm.fromSq, bm.toSq) then
                    st2.history (bm.fromSq, bm.toSq) + (depth : Int) * (depth : Int)
                  else st2.history k }
        idsGo R oracle depth rest best2 alpha2 board2 st3

/-- `MinimaxAI.iterative_deepening_search`. -/
def iterative_deepening_search {Pos : Type} (R : Rules Pos) (oracle : Nat → Bool)
    (board : Board Pos) (depth : Nat) (st : SearchSt) :
    Option Move × Board Pos × SearchSt :=
  idsGo R oracle depth (order_moves R st board.cur depth) none Val.negInf board st

/-- The `for depth in range(1, max_depth + 1)` loop of `get_move`: break on
the top time check, run one iteration, and keep its move only when the move
is present and the post-iteration time check still reports time remaining. -/
def getMoveGo {Pos : Type} (R : Rules Pos) (oracle : Nat → Bool) :
    Nat → Nat → Option Move → Board Pos → SearchSt →
      Option Move × Board Pos × SearchSt
  | 0, _depth, best, board, st => (best, board, st)
  | fuel + 1, depth, best, board, st =>
      let t := tick oracle st
      if t.1 then (best, board, t.2)
      else
        let q := iterative_deepening_search R oracle board depth t.2
        match q.1 with
        | none => getMoveGo R oracle fuel (depth + 1) best q.2.1 q.2.2
        | some m =>
            let t2 := tick oracle q.2.2
            getMoveGo R oracle fuel (depth + 1) (if t2.1 then best else some m)
              q.2.1 t2.2

/-- `MinimaxAI.get_move` with the opening book disabled: reset the node
counter and the clock (the clock oracle is indexed per call), then iterate
depths `1 .. max_depth`. -/
def get_move {Pos : Type} (R : Rules Pos) (oracle : Nat → Bool) (maxDepth : Nat)
    (board : Board Pos) (st : SearchSt) : Option Move × Board Pos × SearchSt :=
  getMoveGo R oracle maxDepth 1 none board { st with nodes := 0, ticks := 0 }

/-- A trivial rules-engine instance over `Pos := Nat`, used as the base for
the concrete instances that witness the claims. -/
def trivialRules : Rules Nat where
  legalMoves _ := []
  next p _ := p
  nullNext p := p
  fen _ := ""
  turn _ := true
  isCheck _ := false
  isCheckmate _ := false
  isGameOver _ := false
  isCapture _ _ := false
  pieceAt _ _ := none

/-- Fresh engine state: empty tables, zero counters. -/
def st0 : SearchSt :=
  { tt := fun _ => none, killer := fun _ _ => none, history := fun _ => 0,
    nodes := 0, ticks := 0 }

/-- A root board handle with an empty undo stack. -/
def b0 : Board Nat := ⟨0, []⟩

/-- A clock that never runs out. -/
def orcF : Nat → Bool := fun _ => false

/-- The null-move probe of `minimax`: push a pass move, search at
`depth - 1 - R` (R = 2) with the narrow window `[-beta, -beta + 1]`, with the
maximizing flag toggled, from the state reached after the node's entry
bookkeeping. -/
def nullProbe {Pos : Type} (R : Rules Pos) (oracle : Nat → Bool) (board : Board Pos)
    (depth : Nat) (beta : Val) (mx : Bool) (st : SearchSt) : Val × Board Pos × SearchSt :=
  minimax R oracle (Board.pushNull R board) (depth - 3) (Val.neg beta)
    (Val.add1 (Val.neg beta)) (!mx) (stepped st)

/-- The ordered-move PVS loop of a `minimax` node, as entered from state `s`:
order the legal moves under `s` and fold the per-move search over them. -/
def pvLoop {Pos : Type} (R : Rules Pos) (oracle : Nat → Bool) (board : Board Pos)
    (depth : Nat) (alpha beta : Val) (mx : Bool) (s : SearchSt) :
    Val × Board Pos × SearchSt :=
  movesPhase R (fun b a bb m2 s2 => minimax R oracle b (depth - 1) a bb m2 s2)
    depth mx (R.fen board.cur) (order_moves R s board.cur depth) board alpha beta true
    (if mx then Val.negInf else Val.posInf) s

/-- Move `a1-b1` of the two-move driver scenario. -/
def mvA : Move := ⟨0, 1, none⟩

/-- Move `a1-c1` of the two-move driver scenario. -/
def mvB : Move := ⟨0, 2, none⟩

/-- Rules instance for the transposition-probe scenario: every position
serializes to the same key. -/
def R3 : Rules Nat := { trivialRules with fen := fun _ => "k" }

/-- Engine state whose transposition table already caches the key "k". -/
def st3 : SearchSt :=
  { st0 with tt := fun k => if k = "k" then some (Val.fin 7) else none }

/-- Rules instance for the null-move scenario: one legal move, a white rook
on square 0, distinct serializations per position. -/
def R4 : Rules Nat :=
  { trivialRules with
    legalMoves := fun _ => [mvA]
    next := fun p _ => p + 1
    nullNext := fun p => p + 50
    fen := fun p => Nat.repr p
    pieceAt := fun _ sq => if sq = 0 then some ⟨PieceType.rook, true⟩ else none }

/-- Rules instance for the timeout scenario: two legal moves at the root,
none afterwards. -/
def R5 : Rules Nat :=
  { trivialRules with
    legalMoves := fun p => if p = 0 then [mvA, mvB] else []
    next := fun _ m => m.toSq + 1
    fen := fun _ => "f" }

/-- A clock that runs out at the third `is_time_up` check of the call. -/
def orc5 : Nat → Bool := fun i => decide (2 ≤ i)

/-- Rules instance for the history-write scenario: a single legal move. -/
def R7 : Rules Nat :=
  { trivialRules with
    legalMoves := fun p => if p = 0 then [mvA] else []
    next := fun _ m => m.toSq + 1
    fen := fun _ => "f" }

/-- Rules instance for the ordinary-capture scenario: a white knight on
square 2 capturing a black queen on square 5. -/
def R6 : Rules Nat :=
  { trivialRules with
    isCapture := fun _ _ => true
    pieceAt := fun _ sq =>
      if sq = 5 then some ⟨PieceType.queen, false⟩
      else if sq = 2 then some ⟨PieceType.knight, true⟩ else none }

/-- The capturing move of the ordinary-capture scenario. -/
def mv6 : Move := ⟨2, 5, none⟩

/-- Rules instance for the en passant scenario (as after 1.e4 d5 2.e5 f5,
white to play exf6 en passant): the capture is flagged by the rules engine
but the destination square f6 is empty, the captured pawn standing on f5. -/
def epR : Rules Nat :=
  { trivialRules with
    isCapture := fun _ _ => true
    pieceAt := fun _ sq => if sq = 36 then some ⟨PieceType.pawn, true⟩ else none }

/-- The en passant move e5xf6 (squares e5 = 36, f6 = 45). -/
def epM : Move := ⟨36, 45, none⟩

/-- Rules instance for a checkmate with Black to move (as after scholar's
mate 1.e4 e5 2.Qh5 Nc6 3.Bc4 Nf6 4.Qxf7#). -/
def mateBlackR : Rules Nat :=
  { trivialRules with isCheckmate := fun _ => true, turn := fun _ => false }

/-- Rules instance for a stalemate-like game-over position: no legal moves,
no check, not checkmate, game over. -/
def staleR : Rules Nat := { trivialRules with isGameOver := fun _ => true }

theorem Board.pop_push {Pos : Type} (R : Rules Pos) (b : Board Pos) (m : Move) :
    Board.pop (Board.push R b m) = b := rfl

theorem Board.pop_pushNull {Pos : Type} (R : Rules Pos) (b : Board Pos) :
    Board.pop (Board.pushNull R b) = b := rfl

/-- The PVS child step restores the board it is given and never touches the
history table, provided the recursive search it wraps does. -/
theorem childSearch_frame {Pos : Type}
    (child : Board Pos → Val → Val → Bool → SearchSt → Val × Board Pos × SearchSt)
    (mx first : Bool) (b1 : Board Pos) (alpha beta : Val) (st : SearchSt)
    (hc : ∀ b a bb m2 s, (child b a bb m2 s).2.1 = b ∧
      (child b a bb m2 s).2.2.history = s.history) :
    (childSearch child mx first b1 alpha beta st).2.1 = b1 ∧
    (childSearch child mx first b1 alpha beta st).2.2.history = st.history := by
  cases first with
  | true =>
    simp only [childSearch]
    exact ⟨(hc _ _ _ _ _).1, (hc _ _ _ _ _).2⟩
  | false =>
    simp only [childSearch]
    split
    · constructor
      · rw [(hc _ _ _ _ _).1, (hc _ _ _ _ _).1]
      · rw [(hc _ _ _ _ _).2, (hc _ _ _ _ _).2]
    · exact ⟨(hc _ _ _ _ _).1, (hc _ _ _ _ _).2⟩

/-- The move loop restores the board it starts from (every push is popped,
also on the cutoff exit) and never writes the history table, provided the
child search does. -/
theorem movesPhase_frame {Pos : Type} (R : Rules Pos)
    (child : Board Pos → Val → Val → Bool → SearchSt → Val × Board Pos × SearchSt)
    (ndepth : Nat) (mx : Bool) (h : String)
    (hc : ∀ b a bb m2 s, (child b a bb m2 s).2.1 = b ∧
      (child b a bb m2 s).2.2.history = s.history) :
    ∀ (moves : List Move) (board : Board Pos) (alpha beta : Val) (first : Bool)
      (acc : Val) (st : SearchSt),
      (movesPhase R child ndepth mx h moves board alpha beta first acc st).2.1 = board ∧
      (movesPhase R child ndepth mx h moves board alpha beta first acc st).2.2.history
        = st.history := by
  intro moves
  induction moves with
  | nil => intro board alpha beta first acc st; exact ⟨rfl, rfl⟩
  | cons m rest ih =>
    intro board alpha beta first acc st
    have hq := childSearch_frame child mx first (Board.push R board m) alpha beta st hc
    simp only [movesPhase]
    rw [hq.1, Board.pop_push]
    cases mx with
    | true =>
      simp only [if_true]
      split
      · exact ⟨rfl, hq.2⟩
      · exact ⟨(ih _ _ _ _ _ _).1, ((ih _ _ _ _ _ _).2).trans hq.2⟩
    | false =>
      simp only [Bool.false_eq_true, if_false]
      split
      · exact ⟨rfl, hq.2⟩
      · exact ⟨(ih _ _ _ _ _ _).1, ((ih _ _ _ _ _ _).2).trans hq.2⟩

/-- The negamax core restores the board on every exit path (transposition
hit, leaf, null-move cutoff, PVS loop) and never writes the history table. -/
theorem minimax_frame {Pos : Type} (R : Rules Pos) (oracle : Nat → Bool) :
    ∀ (depth : Nat) (board : Board Pos) (alpha beta : Val) (mx : Bool) (st : SearchSt),
      (minimax R oracle board depth alpha beta mx st).2.1 = board ∧
      (minimax R oracle board depth alpha beta mx st).2.2.history = st.history := by
  intro depth
  induction depth using Nat.strong_induction_on with
  | _ depth ih =>
    intro board alpha beta mx st
    rw [minimax.eq_1]
    cases htt : st.tt (R.fen board.cur) with
    | some v => exact ⟨rfl, rfl⟩
    | none =>
      rcases depth with _ | d
      · exact ⟨rfl, rfl⟩
      · dsimp only [tick]
        by_cases hgo : R.isGameOver board.cur = true
        · rw [if_pos hgo]; exact ⟨rfl, rfl⟩
        · rw [if_neg hgo]
          cases hor : oracle st.ticks with
          | true => rw [if_pos rfl]; exact ⟨rfl, rfl⟩
          | false =>
            simp only [Bool.false_eq_true, if_false]
            rcases d with _ | _ | dd
            · exact movesPhase_frame R _ _ _ _
                (fun b a bb m2 s => ih 0 (by omega) b a bb m2 s) _ _ _ _ _ _ _
            · exact movesPhase_frame R _ _ _ _
                (fun b a bb m2 s => ih 1 (by omega) b a bb m2 s) _ _ _ _ _ _ _
            · dsimp only
              by_cases hg : (!R.isCheck board.cur && has_major_pieces R board.cur) = true
              · rw [if_pos hg]
                have hq := ih dd (by omega) (Board.pushNull R board) (Val.neg beta)
                  (Val.add1 (Val.neg beta)) (!mx)
                  { st with nodes := st.nodes + 1, ticks := st.ticks + 1 }
                rw [hq.1, Board.pop_pushNull]
                split
                · exact ⟨rfl, hq.2⟩
                · have hmp := movesPhase_frame R
                    (fun b a bb m2 s2 => minimax R oracle b (dd + 2) a bb m2 s2)
                    (dd + 3) mx (R.fen board.cur)
                    (fun b a bb m2 s => ih (dd + 2) (by omega) b a bb m2 s)
                  exact ⟨(hmp _ _ _ _ _ _ _).1, ((hmp _ _ _ _ _ _ _).2).trans hq.2⟩
              · rw [if_neg hg]
                exact movesPhase_frame R _ _ _ _
                  (fun b a bb m2 s => ih (dd + 2) (by omega) b a bb m2 s) _ _ _ _ _ _ _

/-- The driver's per-depth move loop restores the board it starts from. -/
theorem idsGo_board {Pos : Type} (R : Rules Pos) (oracle : Nat → Bool) (depth : Nat) :
    ∀ (moves : List Move) (best : Option Move) (alpha : Val) (board : Board Pos)
      (st : SearchSt),
      (idsGo R oracle depth moves best alpha board st).2.1 = board := by
  intro moves
  induction moves with
  | nil => intro best alpha board st; rfl
  | cons m rest ih =>
    intro best alpha board st
    simp only [idsGo]
    split
    · rfl
    · rw [(minimax_frame R oracle (depth - 1) (Board.push R board m) Val.negInf
        (Val.neg alpha) false (tick oracle st).2).1, Board.pop_push]
      exact ih _ _ _ _

/-- Each entry of the history table is pointwise non-decreasing across the
driver's per-depth move loop. -/
theorem idsGo_history_mono {Pos : Type} (R : Rules Pos) (oracle : Nat → Bool)
    (depth : Nat) :
    ∀ (moves : List Move) (best : Option Move) (alpha : Val) (board : Board Pos)
      (st : SearchSt) (k : Nat × Nat),
      st.history k ≤ (idsGo R oracle depth moves best alpha board st).2.2.history k := by
  intro moves
  induction moves with
  | nil => intro best alpha board st k; exact Int.le_refl _
  | cons m rest ih =>
    intro best alpha board st k
    simp only [idsGo]
    split
    · exact Int.le_refl _
    · refine Int.le_trans ?_ (ih _ _ _ _ _)
      split
      · rw [(minimax_frame R oracle (depth - 1) (Board.push R board m) Val.negInf
          (Val.neg alpha) false (tick oracle st).2).2]
        exact Int.le_refl _
      · dsimp only
        rw [(minimax_frame R oracle (depth - 1) (Board.push R board m) Val.negInf
          (Val.neg alpha) false (tick oracle st).2).2]
        split
        · rename_i heq
          rw [heq]
          exact le_add_of_nonneg_right (mul_self_nonneg _)
        · exact Int.le_refl _

/-- `iterative_deepening_search` restores the board it is given. -/
theorem ids_board {Pos : Type} (R : Rules Pos) (oracle : Nat → Bool)
    (board : Board Pos) (depth : Nat) (st : SearchSt) :
    (iterative_deepening_search R oracle board depth st).2.1 = board :=
  idsGo_board R oracle depth _ _ _ _ _

/-- History entries are pointwise non-decreasing across one driver iteration. -/
theorem ids_history_mono {Pos : Type} (R : Rules Pos) (oracle : Nat → Bool)
    (board : Board Pos) (depth : Nat) (st : SearchSt) (k : Nat × Nat) :
    st.history k ≤ (iterative_deepening_search R oracle board depth st).2.2.history k :=
  idsGo_history_mono R oracle depth _ _ _ _ _ _

/-- The `get_move` depth loop restores the board it starts from. -/
theorem getMoveGo_board {Pos : Type} (R : Rules Pos) (oracle : Nat → Bool) :
    ∀ (fuel depth : Nat) (best : Option Move) (board : Board Pos) (st : SearchSt),
      (getMoveGo R oracle fuel depth best board st).2.1 = board := by
  intro fuel
  induction fuel with
  | zero => intro depth best board st; rfl
  | succ fuel ih =>
    intro depth best board st
    simp only [getMoveGo]
    split
    · rfl
    · cases hq1 : (iterative_deepening_search R oracle board depth (tick oracle st).2).1 with
      | none =>
        rw [ids_board R oracle board depth (tick oracle st).2]
        exact ih _ _ _ _
      | some m =>
        rw [ids_board R oracle board depth (tick oracle st).2]
        exact ih _ _ _ _

/-- History entries are pointwise non-decreasing across the whole depth loop. -/
theorem getMoveGo_history_mono {Pos : Type} (R : Rules Pos) (oracle : Nat → Bool) :
    ∀ (fuel depth : Nat) (best : Option Move) (board : Board Pos) (st : SearchSt)
      (k : Nat × Nat),
      st.history k ≤ (getMoveGo R oracle fuel depth best board st).2.2.history k := by
  intro fuel
  induction fuel with
  | zero => intro depth best board st k; exact Int.le_refl _
  | succ fuel ih =>
    intro depth best board st k
    simp only [getMoveGo]
    split
    · exact Int.le_refl _
    · cases hq1 : (iterative_deepening_search R oracle board depth (tick oracle st).2).1 with
      | none =>
        exact Int.le_trans (ids_history_mono R oracle board depth (tick oracle st).2 k)
          (ih _ _ _ _ _)
      | some m =>
        exact Int.le_trans (ids_history_mono R oracle board depth (tick oracle st).2 k)
          (ih _ _ _ _ _)

/-- C1: after any complete `get_move` call the input position's canonical
serialization (FEN) is unchanged — in the model the returned board handle
equals the input one, every push performed by the search (the null-move push
and the pushes on early-return pruning and cutoff paths of `minimax`
included) being matched by a pop on every exit path, so the search leaks no
mutation of the input position. -/
theorem get_move_frame {Pos : Type} (R : Rules Pos) (oracle : Nat → Bool)
    (maxDepth : Nat) (board : Board Pos) (st : SearchSt) :
    (get_move R oracle maxDepth board st).2.1 = board ∧
    R.fen ((get_move R oracle maxDepth board st).2.1).cur = R.fen board.cur := by
  have h : (get_move R oracle maxDepth board st).2.1 = board :=
    getMoveGo_board R oracle maxDepth 1 none board { st with nodes := 0, ticks := 0 }
  exact ⟨h, by rw [h]⟩

/-- C2 (code bug): in a checkmate position with Black to move,
`evaluate_position` returns +20000 and not the -20000 the claim states: the
early checkmate return is white-centric and bypasses the final
mover-perspective sign flip. -/
theorem evaluate_position_black_checkmate :
    evaluate_position mateBlackR 0 = 20000 ∧ (20000 : Int) ≠ -20000 :=
  ⟨rfl, by decide⟩

/-- C3: when the position's serialization is already a key of the
transposition table, `minimax` returns the stored value immediately — for
every depth, window and maximizing flag — leaving the board and the entire
search state (tables, node counter, clock counter) untouched. -/
theorem minimax_tt_hit {Pos : Type} (R : Rules Pos) (oracle : Nat → Bool)
    (board : Board Pos) (depth : Nat) (alpha beta : Val) (mx : Bool) (st : SearchSt)
    (v : Val) (htt : st.tt (R.fen board.cur) = some v) :
    minimax R oracle board depth alpha beta mx st = (v, board, st) := by
  rw [minimax.eq_1, htt]

/-- C3 witness: at the concrete cached instance the probe at depth 5 returns
the cached value 7 and the state and board unchanged. -/
theorem minimax_tt_hit_witness :
    minimax R3 orcF b0 5 Val.negInf Val.posInf true st3 = (Val.fin 7, b0, st3) :=
  minimax_tt_hit R3 orcF b0 5 Val.negInf Val.posInf true st3 (Val.fin 7) (by decide)

/-- C6 (amended): a capture whose destination square holds a piece (with the
attacker on the origin square) gets the capture term
`10000 + value(victim) - value(attacker)`, to which the killer bonus and the
history score are then added; a capture whose destination square is empty —
an en passant capture — gets capture term 0, the MVV-LVA bonus being
skipped by the `if victim and attacker` guard. -/
theorem order_moves_capture_score {Pos : Type} (R : Rules Pos) (p : Pos) (m : Move)
    (st : SearchSt) (depth : Nat) (v a : Piece)
    (hcap : R.isCapture p m = true) :
    (R.pieceAt p m.toSq = some v → R.pieceAt p m.fromSq = some a →
      captureScore R p m = 10000 + PIECE_VALUES v.pt - PIECE_VALUES a.pt)
    ∧ (R.pieceAt p m.toSq = none → captureScore R p m = 0)
    ∧ moveScore R st p depth m
        = captureScore R p m
          + (if st.killer depth m.fromSq = some m.toSq then 9000 else 0)
          + st.history (m.fromSq, m.toSq) := by
  refine ⟨?_, ?_, rfl⟩
  · intro hv ha
    unfold captureScore
    rw [if_pos hcap, hv, ha]
  · intro hv
    unfold captureScore
    rw [if_pos hcap, hv]

/-- C6 witness: knight takes queen scores 10000 + 900 - 320 as its capture
term. -/
theorem order_moves_capture_score_witness :
    captureScore R6 0 mv6
      = 10000 + PIECE_VALUES PieceType.queen - PIECE_VALUES PieceType.knight :=
  (order_moves_capture_score R6 0 mv6 st0 1 ⟨PieceType.queen, false⟩
    ⟨PieceType.knight, true⟩ rfl).1 (by decide) (by decide)

/-- C6 counterexample: an en passant capture (destination square empty) gets
ordering score 0 with fresh tables, not the 10000 + value(pawn) -
value(pawn) = 10000 the claim assigns to every capture. -/
theorem order_moves_en_passant_cex :
    epR.isCapture 0 epM = true
    ∧ moveScore epR st0 0 1 epM = 0
    ∧ (0 : Int) ≠ 10000 + PIECE_VALUES PieceType.pawn - PIECE_VALUES PieceType.pawn :=
  ⟨rfl, by decide, by decide⟩

/-- C7 (amended): the Negamax Core never writes the history table — its
cutoff sites write only the killer table — and every history write is
performed by the driver loop, which adds depth² to the current best move's
entry once per move iterated; entries are pointwise non-decreasing across a
whole `get_move` call and never reset. -/
theorem history_written_only_by_driver {Pos : Type} (R : Rules Pos)
    (oracle : Nat → Bool) :
    (∀ (board : Board Pos) (depth : Nat) (alpha beta : Val) (mx : Bool) (st : SearchSt),
        (minimax R oracle board depth alpha beta mx st).2.2.history = st.history)
    ∧ (∀ (maxDepth : Nat) (board : Board Pos) (st : SearchSt) (k : Nat × Nat),
        st.history k ≤ (get_move R oracle maxDepth board st).2.2.history k) :=
  ⟨fun board depth alpha beta mx st =>
      (minimax_frame R oracle depth board alpha beta mx st).2,
   fun maxDepth board st k =>
      getMoveGo_history_mono R oracle maxDepth 1 none board
        { st with nodes := 0, ticks := 0 } k⟩

/-- C7 counterexample: one driver iteration at depth 1 over a single legal
move writes history entry (0, 1), adding depth² = 1, while the only negamax
call made along the way (the depth-0 leaf child) leaves the history
untouched: the history write happens in the driver loop, not at a
Negamax-Core cutoff. -/
theorem history_driver_write_cex :
    st0.history (0, 1) = 0
    ∧ (iterative_deepening_search R7 orcF b0 1 st0).2.2.history (0, 1) = 1
    ∧ (minimax R7 orcF (Board.push R7 b0 mvA) 0 Val.negInf Val.posInf false
        (tick orcF st0).2).2.2.history (0, 1) = 0 :=
  ⟨rfl, by decide, by decide⟩

/-- With no legal moves one driver iteration returns no move and leaves
board and state unchanged. -/
theorem ids_no_moves {Pos : Type} (R : Rules Pos) (oracle : Nat → Bool)
    (board : Board Pos) (depth : Nat) (st : SearchSt)
    (h : R.legalMoves board.cur = []) :
    iterative_deepening_search R oracle board depth st = (none, board, st) := by
  unfold iterative_deepening_search order_moves
  rw [h]
  rfl

/-- With no legal moves the depth loop keeps its incoming best move. -/
theorem getMoveGo_no_moves {Pos : Type} (R : Rules Pos) (oracle : Nat → Bool)
    (board : Board Pos) (h : R.legalMoves board.cur = []) :
    ∀ (fuel depth : Nat) (best : Option Move) (st : SearchSt),
      (getMoveGo R oracle fuel depth best board st).1 = best := by
  intro fuel
  induction fuel with
  | zero => intro depth best st; rfl
  | succ fuel ih =>
    intro depth best st
    simp only [getMoveGo]
    split
    · rfl
    · rw [ids_no_moves R oracle board depth (tick oracle st).2 h]
      exact ih _ _ _

/-- C8: for every position whose legal-move enumeration is empty (checkmate
or stalemate already reached), `get_move` returns none. -/
theorem get_move_no_legal_moves {Pos : Type} (R : Rules Pos) (oracle : Nat → Bool)
    (maxDepth : Nat) (board : Board Pos) (st : SearchSt)
    (h : R.legalMoves board.cur = []) :
    (get_move R oracle maxDepth board st).1 = none :=
  getMoveGo_no_moves R oracle board h maxDepth 1 none _

/-- C8 witness: at the trivial instance with an empty legal-move list,
`get_move` returns none. -/
theorem get_move_no_legal_moves_witness :
    (get_move trivialRules orcF 3 b0 st0).1 = none :=
  get_move_no_legal_moves trivialRules orcF 3 b0 st0 rfl

/-- C9: with the opening book disabled (the configuration modelled by
`get_move`) and the clock mocked by the same oracle, two `get_move` calls
from equal boards and equal transposition/killer/history states return the
same move: the search consumes no input beyond position, tables and clock. -/
theorem get_move_deterministic {Pos : Type} (R : Rules Pos) (oracle : Nat → Bool)
    (maxDepth : Nat) (b1 b2 : Board Pos) (s1 s2 : SearchSt)
    (hb : b1 = b2) (hs : s1 = s2) :
    get_move R oracle maxDepth b1 s1 = get_move R oracle maxDepth b2 s2 := by
  rw [hb, hs]

/-- C9 witness: the two runs coincide at the concrete two-move instance. -/
theorem get_move_deterministic_witness :
    get_move R5 orc5 1 b0 st0 = get_move R5 orc5 1 b0 st0 :=
  get_move_deterministic R5 orc5 1 b0 b0 st0 st0 rfl rfl

/-- C10: a stalemate position (no legal moves, not in check, not checkmate)
gets no draw special case: `evaluate_position` returns the ordinary
material, piece-square and pawn-count sum signed for the mover, the
mobility and check terms contributing zero; and `minimax` treats such a
game-over position as a leaf, returning that value and caching it under the
position's serialization, for every depth, window and maximizing flag. -/
theorem evaluate_position_stalemate {Pos : Type} (R : Rules Pos) (oracle : Nat → Bool)
    (board : Board Pos) (st : SearchSt)
    (hcm : R.isCheckmate board.cur = false)
    (hlm : R.legalMoves board.cur = [])
    (hck : R.isCheck board.cur = false)
    (hgo : R.isGameOver board.cur = true)
    (htt : st.tt (R.fen board.cur) = none) :
    (evaluate_position R board.cur
      = (if R.turn board.cur then materialScore R board.cur + pawnCountScore R board.cur
         else -(materialScore R board.cur + pawnCountScore R board.cur)))
    ∧ ∀ (depth : Nat) (alpha beta : Val) (mx : Bool),
        minimax R oracle board depth alpha beta mx st
          = (Val.fin (evaluate_position R board.cur), board,
             { st with nodes := st.nodes + 1,
                       tt := fun k => if k = R.fen board.cur
                                      then some (Val.fin (evaluate_position R board.cur))
                                      else st.tt k }) := by
  constructor
  · unfold evaluate_position
    rw [hcm, hlm, hck]
    simp only [Bool.false_eq_true, if_false, List.length_nil, Nat.cast_zero,
      zero_mul, neg_zero, ite_self, add_zero]
  · intro depth alpha beta mx
    rcases depth with _ | d
    · rw [minimax.eq_1, htt]
      rfl
    · rw [minimax.eq_1, htt]
      dsimp only
      rw [if_pos hgo]
      rfl

/-- C10 witness: at the concrete stalemate-like instance (empty board, White
to move) the evaluator returns the bare sum and `minimax` at depth 2 returns
and caches it. -/
theorem evaluate_position_stalemate_witness :
    (evaluate_position staleR 0
      = (if staleR.turn 0 then materialScore staleR 0 + pawnCountScore staleR 0
         else -(materialScore staleR 0 + pawnCountScore staleR 0)))
    ∧ minimax staleR orcF b0 2 Val.negInf Val.posInf true st0
        = (Val.fin (evaluate_position staleR 0), b0,
           { st0 with nodes := st0.nodes + 1,
                      tt := fun k => if k = staleR.fen 0
                                     then some (Val.fin (evaluate_position staleR 0))
                                     else st0.tt k }) := by
  have h := evaluate_position_stalemate staleR orcF b0 st0 rfl rfl rfl rfl rfl
  exact ⟨h.1, h.2 2 Val.negInf Val.posInf true⟩

/-- C4: at a non-leaf node (transposition miss, depth ≠ 0, not game over,
clock not yet expired) whose three null-move guards hold — depth ≥ 3, side
to move not in check, side to move holding a non-king non-pawn piece — the
core first runs the null-move probe: it pushes a pass move, searches at
depth - 1 - 2 with the narrow window [-beta, -beta + 1] and the maximizing
flag toggled, undoes the pass (the returned board is the entry board), and
returns beta immediately when the negated probe value reaches beta,
otherwise entering the ordered-move loop from the probe's state; when any
of the three guards fails, the node enters the ordered-move loop directly,
performing no null-move recursion. -/
theorem minimax_null_move_pruning {Pos : Type} (R : Rules Pos) (oracle : Nat → Bool)
    (board : Board Pos) (depth : Nat) (alpha beta : Val) (mx : Bool) (st : SearchSt)
    (htt : st.tt (R.fen board.cur) = none)
    (hd : depth ≠ 0)
    (hgo : R.isGameOver board.cur = false)
    (hor : oracle st.ticks = false) :
    (3 ≤ depth → R.isCheck board.cur = false → has_major_pieces R board.cur = true →
      (Val.le beta (Val.neg (nullProbe R oracle board depth beta mx st).1) = true →
        minimax R oracle board depth alpha beta mx st
          = (beta, board, (nullProbe R oracle board depth beta mx st).2.2))
      ∧ (Val.le beta (Val.neg (nullProbe R oracle board depth beta mx st).1) = false →
        minimax R oracle board depth alpha beta mx st
          = pvLoop R oracle board depth alpha beta mx
              (nullProbe R oracle board depth beta mx st).2.2))
    ∧ ((¬ 3 ≤ depth ∨ R.isCheck board.cur = true ∨ has_major_pieces R board.cur = false) →
      minimax R oracle board depth alpha beta mx st
        = pvLoop R oracle board depth alpha beta mx (stepped st)) := by
  have hgo2 : ¬ (R.isGameOver board.cur = true) := by simp [hgo]
  constructor
  · intro h3 hck hmaj
    obtain ⟨dd, rfl⟩ : ∃ dd, depth = dd + 3 := ⟨depth - 3, by omega⟩
    have hg : (!R.isCheck board.cur && has_major_pieces R board.cur) = true := by
      rw [hck, hmaj]
      rfl
    have key : minimax R oracle board (dd + 3) alpha beta mx st
        = (if Val.le beta (Val.neg (nullProbe R oracle board (dd + 3) beta mx st).1) = true
           then (beta, board, (nullProbe R oracle board (dd + 3) beta mx st).2.2)
           else pvLoop R oracle board (dd + 3) alpha beta mx
             (nullProbe R oracle board (dd + 3) beta mx st).2.2) := by
      rw [minimax.eq_1, htt]
      dsimp only [tick]
      rw [if_neg hgo2, hor]
      simp only [Bool.false_eq_true, if_false]
      rw [if_pos hg]
      rw [(minimax_frame R oracle dd (Board.pushNull R board) (Val.neg beta)
        (Val.add1 (Val.neg beta)) (!mx)
        { st with nodes := st.nodes + 1, ticks := st.ticks + 1 }).1,
        Board.pop_pushNull]
      rfl
    constructor
    · intro hcut
      rw [key, if_pos hcut]
    · intro hcut
      rw [key, if_neg]
      simp [hcut]
  · intro hfail
    by_cases h3 : 3 ≤ depth
    · obtain ⟨dd, rfl⟩ : ∃ dd, depth = dd + 3 := ⟨depth - 3, by omega⟩
      have hg : (!R.isCheck board.cur && has_major_pieces R board.cur) = false := by
        rcases hfail with h | h | h
        · exact absurd h3 h
        · rw [h]
          rfl
        · rw [h, Bool.and_false]
      rw [minimax.eq_1, htt]
      dsimp only [tick]
      rw [if_neg hgo2, hor]
      simp only [Bool.false_eq_true, if_false]
      rw [hg]
      simp only [Bool.false_eq_true, if_false]
      rfl
    · rcases depth with _ | _ | _ | dd
      · exact absurd rfl hd
      · rw [minimax.eq_1, htt]
        dsimp only [tick]
        rw [if_neg hgo2, hor]
        simp only [Bool.false_eq_true, if_false]
        rfl
      · rw [minimax.eq_1, htt]
        dsimp only [tick]
        rw [if_neg hgo2, hor]
        simp only [Bool.false_eq_true, if_false]
        rfl
      · exact absurd (by omega) h3

/-- C4 witness: at the concrete rook instance at depth 3 with beta = -600,
the null probe evaluates the passed position to 510, its negation -510
reaches beta, and `minimax` returns beta. -/
theorem minimax_null_move_pruning_witness :
    (minimax R4 orcF b0 3 Val.negInf (Val.fin (-600)) true st0).1 = Val.fin (-600) := by
  have h := (minimax_null_move_pruning R4 orcF b0 3 Val.negInf (Val.fin (-600)) true st0
    (by decide) (by decide) rfl rfl).1 (by decide) rfl (by decide)
  rw [h.1 (by decide)]

/-- Once the clock reports time up at the loop's next check, the depth loop
returns its incoming best move unchanged. -/
theorem getMoveGo_timeup {Pos : Type} (R : Rules Pos) (oracle : Nat → Bool)
    (fuel depth : Nat) (best : Option Move) (board : Board Pos) (st : SearchSt)
    (h : oracle st.ticks = true) :
    (getMoveGo R oracle fuel depth best board st).1 = best := by
  cases fuel with
  | zero => rfl
  | succ fuel =>
    simp only [getMoveGo]
    dsimp only [tick]
    rw [h, if_pos rfl]

/-- C5 (amended): under a monotone clock, an iteration during which the
clock expires cannot contribute a move: the driver's post-iteration check
still reports time up, so the cut-short iteration's partial best move is
discarded and `get_move` keeps the best move of the previous, completed
iterations. -/
theorem get_move_timeout_keeps_previous {Pos : Type} (R : Rules Pos)
    (oracle : Nat → Bool)
    (hmono : ∀ i j, i ≤ j → oracle i = true → oracle j = true)
    (fuel depth : Nat) (best : Option Move) (board : Board Pos) (st : SearchSt)
    (hcut : ∃ i, i < (iterative_deepening_search R oracle board depth
        { st with ticks := st.ticks + 1 }).2.2.ticks ∧ oracle i = true) :
    (getMoveGo R oracle fuel depth best board st).1 = best := by
  cases fuel with
  | zero => rfl
  | succ fuel =>
    simp only [getMoveGo]
    dsimp only [tick]
    cases hor : oracle st.ticks with
    | true => rw [if_pos rfl]
    | false =>
      simp only [Bool.false_eq_true, if_false]
      obtain ⟨i, hi, horc⟩ := hcut
      have hoq : oracle (iterative_deepening_search R oracle board depth
          { st with ticks := st.ticks + 1 }).2.2.ticks = true :=
        hmono i _ (by omega) horc
      cases hq1 : (iterative_deepening_search R oracle board depth
          { st with ticks := st.ticks + 1 }).1 with
      | none => exact getMoveGo_timeup R oracle fuel (depth + 1) best _ _ hoq
      | some m =>
        dsimp only [tick]
        rw [hoq, if_pos rfl]
        exact getMoveGo_timeup R oracle fuel (depth + 1) best _ _
          (hmono _ _ (Nat.le_succ _) hoq)

/-- C5 witness: at the concrete two-move instance whose clock expires at the
third check, the depth loop started with no previous best returns none. -/
theorem get_move_timeout_keeps_previous_witness :
    (getMoveGo R5 orc5 1 1 none b0 st0).1 = none :=
  get_move_timeout_keeps_previous R5 orc5
    (fun i j hij hi => decide_eq_true (Nat.le_trans (of_decide_eq_true hi) hij))
    1 1 none b0 st0 ⟨2, by decide, by decide⟩

/-- C5 counterexample: with two legal moves, a depth limit of 1 and a clock
that expires at the third check, the single iteration is cut short after
having evaluated its first move — run from the driver's state it returns
that move — yet `get_move` returns none: the partially completed deepest
iteration's best move is discarded, not returned. -/
theorem get_move_discards_cut_iteration_cex :
    (get_move R5 orc5 1 b0 st0).1 = none
    ∧ (iterative_deepening_search R5 orc5 b0 1 { st0 with ticks := 1 }).1 = some mvA :=
  ⟨by decide, by decide⟩
